import Mathlib

/-!
Verification of the FAOSTAT commodity-price ETL core
(`src/etl/commodity_prices_clean.py`): field reconciliation
(`_coalesce_columns`), type coercion, required-field dropping, business-key
deduplication (`transform`), and the pandera schema validation performed by
`run`.

Modelling notes.
* A raw DataFrame is a list of rows (association lists of field name to
  scalar) together with the list of column names; `pd.json_normalize` fills
  absent keys with NaN, modelled by a `null` lookup default.  Every row
  carries a `raw_id` (the pipeline always attaches one before `transform`).
* Timestamps and dates are encoded as `Nat` via `y*10000 + m*100 + d`
  (day resolution: the chronological order of such encodings is the numeric
  order, and no claim exercises sub-day precision or pandas Timestamp range
  bounds).  `pd.to_datetime(errors="coerce")` is modelled on the textual
  formats exercised here (ISO `YYYY-MM-DD`, `YYYY-MM`, bare `YYYY`);
  anything else parses to `none` (NaT).  Numeric epoch inputs to
  `to_datetime` are not exercised by any claim and are modelled as NaT.
* `pd.to_numeric(errors="coerce")` is modelled by a decimal parser into
  `Rat` (optional sign, digits, optional fractional part); non-numeric text
  coerces to `none` (NaN).
* `sort_values("ingested_at", ascending=False)` places NaT last
  (`na_position` defaults to `"last"`) and, with the default
  `kind='quicksort'`, guarantees only sortedness, NOT the relative order of
  tied timestamps (only mergesort/"stable" are stable).  `IsSortResult`
  captures exactly that guarantee: any permutation of the input that is
  descending in `ingested_at`.  The executable `sortDesc` commits to one
  admissible tie order so the pipeline stays computable; every property
  that depends on tie order is proved (or refuted) against all admissible
  sort results, never against `sortDesc`'s particular tie order.
  `drop_duplicates(keep="first")` is `dropDupFirst`.
* Pandera validation of `CommodityPriceSchema` checks (a) presence of every
  declared column and (b) the `nullable=False` fields `price_date`,
  `price_value`, `raw_id`; `raw_id` is an `Int` by construction here, and
  dtype coercion (`Config.coerce = True`) always succeeds on the typed
  columns `transform` builds, so the row-level check reduces to the
  nullability of `price_date` and `price_value`.
-/

/-- A raw scalar as it appears after decoding a JSON payload: a string, a
number, a datetime object (only produced by the `datetime.utcnow()` default
of the `ingested_at` reconciliation), or null/NaN. -/
inductive Value where
  | str (s : String)
  | num (q : Rat)
  | time (t : Nat)
  | null
deriving DecidableEq, Repr

/-- One raw record: its open-schema fields plus the `raw_id` attached by
`_load_raw_dataframe` (`normalized["raw_id"] = raw_df["id"]`). -/
structure RawRow where
  fields : List (String × Value)
  rawId : Int
deriving DecidableEq, Repr

/-- A raw DataFrame: column names plus rows. -/
structure RawFrame where
  cols : List String
  rows : List RawRow
deriving DecidableEq, Repr

/-- Value of field `c` in a row; a key absent from the payload is NaN after
`pd.json_normalize`. -/
def lookupField (r : RawRow) (c : String) : Value :=
  ((r.fields.find? (fun p => p.1 == c)).map Prod.snd).getD .null

/-- The column `df[c]` as a list of scalars, one per row. -/
def getCol (df : RawFrame) (c : String) : List Value :=
  df.rows.map (fun r => lookupField r c)

/-- `series.isna()` for one scalar of an object column: only None/NaN are
na. -/
def isNullV (v : Value) : Bool := v == .null

/-- Shallow embedding of `_coalesce_columns(df, candidates, default)`:
try each candidate column in order; return the first that is present in the
frame and not entirely na; otherwise broadcast the default (or None) to the
frame's length. -/
def coalesceColumns (df : RawFrame) (cands : List String)
    (default : Option Value) : List Value :=
  match cands with
  | [] => List.replicate df.rows.length (default.getD .null)
  | c :: rest =>
      if df.cols.contains c && !((getCol df c).all isNullV) then getCol df c
      else coalesceColumns df rest default

/-- The candidate column that `_coalesce_columns` would select, as a
`find?`: present in the frame and having at least one non-null value. -/
def qualifies (df : RawFrame) (c : String) : Bool :=
  df.cols.contains c && !((getCol df c).all isNullV)

/-- Numeric value of a list of decimal digit characters. -/
def digitsVal (cs : List Char) : Nat :=
  cs.foldl (fun a c => a * 10 + (c.toNat - 48)) 0

/-- Non-empty and all decimal digits. -/
def allDigits (cs : List Char) : Bool :=
  !cs.isEmpty && cs.all Char.isDigit

/-- The whitespace `str.strip()` removes. -/
def isSpaceC (c : Char) : Bool :=
  c == ' ' || c == '\t' || c == '\n' || c == '\r'

/-- `str.strip()` on a character list. -/
def trimChars (cs : List Char) : List Char :=
  ((cs.dropWhile isSpaceC).reverse.dropWhile isSpaceC).reverse

/-- Split on the separator of the ISO date formats modelled here. -/
def splitDash : List Char → List (List Char)
  | [] => [[]]
  | c :: rest =>
      match splitDash rest with
      | [] => [[]]
      | g :: gs => if c == '-' then [] :: g :: gs else (c :: g) :: gs

/-- Day-encoded date `y*10000 + m*100 + d`. -/
def parseYMD (y m d : Nat) : Nat := y * 10000 + m * 100 + d

/-- `pd.to_datetime(s, errors="coerce")` on the textual formats exercised by
the pipeline's claims: bare four-digit year (start of year), `YYYY-MM`
(start of month), `YYYY-MM-DD`; anything else is NaT (`none`). -/
def parseDate (s : String) : Option Nat :=
  match splitDash (trimChars s.data) with
  | [y] =>
      if allDigits y && y.length == 4 then some (parseYMD (digitsVal y) 1 1)
      else none
  | [y, m] =>
      if allDigits y && y.length == 4 && allDigits m && decide (m.length ≤ 2) then
        let mv := digitsVal m
        if 1 ≤ mv ∧ mv ≤ 12 then some (parseYMD (digitsVal y) mv 1) else none
      else none
  | [y, m, d] =>
      if allDigits y && y.length == 4 && allDigits m && allDigits d then
        let mv := digitsVal m
        let dv := digitsVal d
        if 1 ≤ mv ∧ mv ≤ 12 ∧ 1 ≤ dv ∧ dv ≤ 31 then
          some (parseYMD (digitsVal y) mv dv)
        else none
      else none
  | _ => none

/-- `pd.to_numeric(s, errors="coerce")` on a string: optional sign, integer
part, optional fractional part; failure is NaN (`none`). -/
def parseNum (s : String) : Option Rat :=
  let cs := trimChars s.data
  let signed : Bool × List Char :=
    match cs with
    | '-' :: r => (true, r)
    | '+' :: r => (false, r)
    | _ => (false, cs)
  let ds := signed.2.takeWhile Char.isDigit
  let rest := signed.2.dropWhile Char.isDigit
  if ds.isEmpty then none
  else
    let mkSigned : Int → Nat → Rat := fun n d =>
      if signed.1 then -(mkRat n d) else mkRat n d
    match rest with
    | [] => some (mkSigned (digitsVal ds) 1)
    | '.' :: fs =>
        if fs.all Char.isDigit then
          some (mkSigned (digitsVal ds * 10 ^ fs.length + digitsVal fs) (10 ^ fs.length))
        else none
    | _ => none

/-- `series.astype(str)` on one scalar: None renders as the unparseable
string "None" (NaN as "nan" — either way no date parses from it); integral
numbers render as their digits.  Non-integral numerics and datetime objects
are not exercised on this path by any claim and render opaquely. -/
def valToStr : Value → String
  | .str s => s
  | .null => "None"
  | .num q => if q.den = 1 then toString q.num else toString q.num ++ "/" ++ toString q.den
  | .time t => toString t

/-- The date coercion of `transform`: `astype(str).str.strip()` then
`pd.to_datetime(errors="coerce")`. -/
def coerceDate (v : Value) : Option Nat := parseDate (valToStr v)

/-- `pd.to_datetime(errors="coerce")` applied directly to scalars (the
`ingested_at` path, which has no `astype(str)`). -/
def toDatetime : Value → Option Nat
  | .time t => some t
  | .str s => parseDate s
  | .num _ => none
  | .null => none

/-- `pd.to_numeric(errors="coerce")` on one scalar. -/
def toNumeric : Value → Option Rat
  | .num q => some q
  | .str s => parseNum s
  | .time _ => none
  | .null => none

/-- A raw scalar kept verbatim in an object column, with None/NaN as
`none`. -/
def optVal : Value → Option Value
  | .null => none
  | v => some v

/-- One row of `transform`'s output frame (typed canonical record). -/
structure CanonRow where
  price_date : Option Nat
  commodity_id : Option Value
  commodity_name : Option Value
  price_type : Option Value
  price_currency : Option Value
  price_value : Option Rat
  source_name : Option Value
  ingested_at : Option Nat
  raw_id : Int
deriving DecidableEq, Repr

/-- `output["price_date"]`. -/
def dateCol (df : RawFrame) : List (Option Nat) :=
  (coalesceColumns df ["price_date", "timeperiod", "time", "year"] none).map coerceDate

/-- `output["commodity_id"]`. -/
def commodityIdCol (df : RawFrame) : List (Option Value) :=
  (coalesceColumns df ["commodity_id", "item_code", "Item Code (CPC)"] none).map optVal

/-- `output["commodity_name"]`. -/
def commodityNameCol (df : RawFrame) : List (Option Value) :=
  (coalesceColumns df ["commodity_name", "item", "Item"] none).map optVal

/-- `output["price_type"]`. -/
def priceTypeCol (df : RawFrame) : List (Option Value) :=
  (coalesceColumns df ["price_type", "element", "Element"] none).map optVal

/-- `output["price_currency"]` (default "USD"). -/
def priceCurrencyCol (df : RawFrame) : List (Option Value) :=
  (coalesceColumns df ["price_currency", "unit", "Unit"] (some (.str "USD"))).map optVal

/-- `output["price_value"]` after `pd.to_numeric`. -/
def priceValueCol (df : RawFrame) : List (Option Rat) :=
  (coalesceColumns df ["price_value", "Value"] none).map toNumeric

/-- `output["source_name"]` (default "FAOSTAT"). -/
def sourceNameCol (df : RawFrame) : List (Option Value) :=
  (coalesceColumns df ["source_name", "Source"] (some (.str "FAOSTAT"))).map optVal

/-- `output["ingested_at"]`: the `ingested_at` column when usable, else the
broadcast `datetime.utcnow()` (`now`), then `pd.to_datetime`. -/
def ingestedAtCol (now : Nat) (df : RawFrame) : List (Option Nat) :=
  (coalesceColumns df ["ingested_at"] (some (.time now))).map toDatetime

/-- `output["raw_id"] = df["raw_id"]`. -/
def rawIdCol (df : RawFrame) : List Int :=
  df.rows.map RawRow.rawId

/-- Row `i` of the assembled output frame (pandas aligns all the column
assignments on the shared default index). -/
def buildRow (now : Nat) (df : RawFrame) (i : Nat) : CanonRow :=
  { price_date := (dateCol df).getD i none
    commodity_id := (commodityIdCol df).getD i none
    commodity_name := (commodityNameCol df).getD i none
    price_type := (priceTypeCol df).getD i none
    price_currency := (priceCurrencyCol df).getD i none
    price_value := (priceValueCol df).getD i none
    source_name := (sourceNameCol df).getD i none
    ingested_at := (ingestedAtCol now df).getD i none
    raw_id := (rawIdCol df).getD i 0 }

/-- The coerced record set, before any dropping. -/
def coercedRows (now : Nat) (df : RawFrame) : List CanonRow :=
  (List.range df.rows.length).map (buildRow now df)

/-- `output.dropna(subset=["price_date", "price_value"])`.  The subsequent
`astype(float)` and `.dt.tz_localize(None)` are identities in this
timezone-naive, already-typed model. -/
def postDropRows (now : Nat) (df : RawFrame) : List CanonRow :=
  (coercedRows now df).filter (fun r => r.price_date.isSome && r.price_value.isSome)

/-- The business key used by `drop_duplicates`. -/
def bkey (r : CanonRow) : Option Nat × Option Value × Option Value × Option Value :=
  (r.price_date, r.commodity_id, r.price_type, r.source_name)

/-- The sort key of the deduplication: `ingested_at`. -/
def prio (r : CanonRow) : Option Nat := r.ingested_at

/-- Strictly-greater on optional timestamps with NaT least (pandas sorts
NaT last in a descending sort). -/
def tgt : Option Nat → Option Nat → Bool
  | some a, some b => decide (b < a)
  | some _, none => true
  | none, _ => false

/-- `x` strictly precedes `y` in the descending `ingested_at` order. -/
def rowBefore (x y : CanonRow) : Bool := tgt (prio x) (prio y)

/-- Stable insertion into a descending-sorted list: the inserted row passes
only rows strictly more recent, so among ties the earlier input row stays
first. -/
def insertDesc (x : CanonRow) : List CanonRow → List CanonRow
  | [] => [x]
  | y :: ys => if rowBefore y x then y :: insertDesc x ys else x :: y :: ys

/-- One admissible output of `sort_values("ingested_at", ascending=False)`
(insertion-sort tie order), used to keep `dedup` executable.  The code's
default `kind='quicksort'` does not fix the relative order of tied
timestamps, so no theorem about tie order may rely on this particular
order; `IsSortResult` below quantifies over all admissible outputs. -/
def sortDesc : List CanonRow → List CanonRow
  | [] => []
  | x :: xs => insertDesc x (sortDesc xs)

/-- `drop_duplicates(subset=business key, keep="first")`: keep a row only
when its key has not been seen yet. -/
def dropDupFirst : List CanonRow →
    List (Option Nat × Option Value × Option Value × Option Value) → List CanonRow
  | [], _ => []
  | r :: rs, seen =>
      if bkey r ∈ seen then dropDupFirst rs seen
      else r :: dropDupFirst rs (bkey r :: seen)

/-- The deduplication step of `transform` (lines 110-117). -/
def dedup (l : List CanonRow) : List CanonRow :=
  dropDupFirst (sortDesc l) []

/-- Result of `transform`: the empty input frame is returned unchanged
(`if df.empty: return df`), keeping whatever columns it had; otherwise the
canonical rows. -/
inductive TransformResult where
  | passthrough (cols : List String)
  | canonical (rows : List CanonRow)
deriving DecidableEq, Repr

/-- Shallow embedding of `transform(df)`; `now` is `datetime.utcnow()`. -/
def transform (now : Nat) (df : RawFrame) : TransformResult :=
  if df.rows.isEmpty then .passthrough df.cols
  else .canonical (dedup (postDropRows now df))

/-- The record set carried by a transform result. -/
def canonRowsOf : TransformResult → List CanonRow
  | .passthrough _ => []
  | .canonical rows => rows

/-- The columns `CommodityPriceSchema` declares (all `required`). -/
def canonicalCols : List String :=
  ["price_date", "commodity_id", "commodity_name", "price_type",
   "price_currency", "price_value", "source_name", "ingested_at", "raw_id"]

/-- Row-level pandera check: the `nullable=False` fields `price_date` and
`price_value` are non-null (`raw_id` is non-null by construction, the other
fields are `nullable=True`). -/
def rowPasses (r : CanonRow) : Bool :=
  r.price_date.isSome && r.price_value.isSome

/-- `CommodityPriceSchema.validate(transformed, lazy=True)` succeeds iff
every declared column is present in the frame and every row passes the
nullability rules; on the empty passthrough frame only the column-presence
check can fail. -/
def validateResult : TransformResult → Bool
  | .passthrough cols => canonicalCols.all (fun c => cols.contains c)
  | .canonical rows => rows.all rowPasses

/-- `run()` up to persistence: transform the raw frame, then validate the
transformed frame (validation's input is `transform`'s output). -/
def runValidates (now : Nat) (df : RawFrame) : Bool :=
  validateResult (transform now df)

/-- Maximum of two optional timestamps, NaT least. -/
def omax : Option Nat → Option Nat → Option Nat
  | none, b => b
  | some a, none => some a
  | some a, some b => some (max a b)

/-- The greatest `observed_at` over a record set (NaT when empty or all
NaT). -/
def maxPrio (l : List CanonRow) : Option Nat :=
  l.foldr (fun r acc => omax (prio r) acc) none

/-- Sorted by `ingested_at` descending, NaT last: no later row is strictly
more recent than an earlier one. -/
abbrev SortedDesc (l : List CanonRow) : Prop :=
  l.Pairwise (fun a b => rowBefore b a = false)

/-- The business-key filter predicate. -/
def keyIs (k : Option Nat × Option Value × Option Value × Option Value)
    (r : CanonRow) : Bool := decide (bkey r = k)

/-- Among the rows of `l` sharing the key `k`, the first (in input order)
of those with the greatest `observed_at`: the record the spec says
deduplication retains. -/
def keptForKey (k : Option Nat × Option Value × Option Value × Option Value)
    (l : List CanonRow) : Option CanonRow :=
  (l.filter (keyIs k)).find?
    (fun r => decide (prio r = maxPrio (l.filter (keyIs k))))

/-- Spec scenario frame: two raw records sharing the business key
(2021-01-01, "CID1", "wholesale", "FAOSTAT"), observed at 2021-02-01 and
2021-03-01. -/
def exFrameC1 : RawFrame :=
  { cols := ["price_date", "commodity_id", "price_type", "source_name",
             "price_value", "ingested_at"]
    rows :=
      [ { fields := [("price_date", .str "2021-01-01"), ("commodity_id", .str "CID1"),
                     ("price_type", .str "wholesale"), ("source_name", .str "FAOSTAT"),
                     ("price_value", .str "10"), ("ingested_at", .str "2021-02-01")]
          rawId := 1 },
        { fields := [("price_date", .str "2021-01-01"), ("commodity_id", .str "CID1"),
                     ("price_type", .str "wholesale"), ("source_name", .str "FAOSTAT"),
                     ("price_value", .str "11"), ("ingested_at", .str "2021-03-01")]
          rawId := 2 } ] }

/-- The canonical record the C1 scenario must retain: the 2021-03-01
observation. -/
def keptRowC1 : CanonRow :=
  { price_date := some 20210101
    commodity_id := some (.str "CID1")
    commodity_name := none
    price_type := some (.str "wholesale")
    price_currency := some (.str "USD")
    price_value := some 11
    source_name := some (.str "FAOSTAT")
    ingested_at := some 20210301
    raw_id := 2 }

/-- The discarded record of the C1 scenario: the 2021-02-01 observation. -/
def otherRowC1 : CanonRow :=
  { price_date := some 20210101
    commodity_id := some (.str "CID1")
    commodity_name := none
    price_type := some (.str "wholesale")
    price_currency := some (.str "USD")
    price_value := some 10
    source_name := some (.str "FAOSTAT")
    ingested_at := some 20210201
    raw_id := 1 }

/-- Spec scenario frame: one raw record with `Value = "12.50"`,
`Item Code (CPC) = "0711"`, and no `price_value`/`commodity_id` columns. -/
def exFrameC3 : RawFrame :=
  { cols := ["Value", "Item Code (CPC)"]
    rows := [ { fields := [("Value", .str "12.50"), ("Item Code (CPC)", .str "0711")]
                rawId := 1 } ] }

/-- Frame with a year-only date and an unparseable date. -/
def exFrameC9 : RawFrame :=
  { cols := ["price_date", "price_value"]
    rows :=
      [ { fields := [("price_date", .str "2021"), ("price_value", .str "1")], rawId := 1 },
        { fields := [("price_date", .str "not-a-date"), ("price_value", .str "2")], rawId := 2 } ] }

/-- Frame where the chosen `price_date` alias is null for the first row
while the lower-priority alias `year` is non-null there. -/
def exFrameC10 : RawFrame :=
  { cols := ["price_date", "year", "price_value"]
    rows :=
      [ { fields := [("year", .str "2020"), ("price_value", .str "5")], rawId := 1 },
        { fields := [("price_date", .str "2021-01-01"), ("year", .str "2020"),
                     ("price_value", .str "6")], rawId := 2 } ] }

/-- The empty raw frame `_load_raw_dataframe` produces when the raw table
has no rows (`pd.DataFrame()`: no rows, no columns). -/
def emptyFrame : RawFrame := { cols := [], rows := [] }

/-- An admissible result of `sort_values("ingested_at", ascending=False)`
on `l`: a permutation of `l` that is descending in `ingested_at` (NaT
last).  pandas' default `kind='quicksort'` guarantees sortedness but not
the relative order of tied timestamps, so every such permutation is a
possible output of the code's sort. -/
abbrev IsSortResult (l s : List CanonRow) : Prop :=
  s.Perm l ∧ SortedDesc s

/-- First of two coerced records sharing a business key AND the greatest
`ingested_at` (a tie, as `transform` produces whenever the `ingested_at`
reconciliation falls back to the single broadcast `datetime.utcnow()`). -/
def tieRowA : CanonRow :=
  { price_date := some 20210101
    commodity_id := some (.str "CID1")
    commodity_name := none
    price_type := some (.str "wholesale")
    price_currency := some (.str "USD")
    price_value := some 10
    source_name := some (.str "FAOSTAT")
    ingested_at := some 20210201
    raw_id := 1 }

/-- Second record of the tie: same business key and same `ingested_at` as
`tieRowA`, later in input order. -/
def tieRowB : CanonRow :=
  { price_date := some 20210101
    commodity_id := some (.str "CID1")
    commodity_name := none
    price_type := some (.str "wholesale")
    price_currency := some (.str "USD")
    price_value := some 11
    source_name := some (.str "FAOSTAT")
    ingested_at := some 20210201
    raw_id := 2 }

theorem tgt_irrefl (a : Option Nat) : tgt a a = false := by
  cases a <;> simp [tgt]

theorem tgt_asymm {a b : Option Nat} (h : tgt a b = true) : tgt b a = false := by
  cases a <;> cases b <;> simp_all [tgt] <;> omega

theorem tgt_trans_neg {a b c : Option Nat} (h1 : tgt a b = false)
    (h2 : tgt b c = false) : tgt a c = false := by
  cases a <;> cases b <;> cases c <;> simp_all [tgt] <;> omega

theorem tgt_ne {a b : Option Nat} (h : tgt a b = true) : b ≠ a := by
  cases a <;> cases b <;> simp_all [tgt] <;> omega

theorem omax_none_right (a : Option Nat) : omax a none = a := by
  cases a <;> rfl

theorem omax_eq_left {a b : Option Nat} (h : tgt b a = false) : omax a b = a := by
  cases a <;> cases b <;> simp_all [tgt, omax] <;> omega

theorem omax_eq_right {a b : Option Nat} (h : tgt b a = true) : omax a b = b := by
  cases a <;> cases b <;> simp_all [tgt, omax] <;> omega

theorem tgt_omax_self (a b : Option Nat) : tgt a (omax a b) = false := by
  cases a <;> cases b <;> simp [tgt, omax] <;> omega

theorem tgt_omax_mono {c b : Option Nat} (h : tgt c b = false) (a : Option Nat) :
    tgt c (omax a b) = false := by
  cases a <;> cases b <;> cases c <;> simp_all [tgt, omax] <;> omega

theorem maxPrio_cons (r : CanonRow) (l : List CanonRow) :
    maxPrio (r :: l) = omax (prio r) (maxPrio l) := rfl

theorem mem_tgt_maxPrio {r : CanonRow} {l : List CanonRow} (h : r ∈ l) :
    tgt (prio r) (maxPrio l) = false := by
  induction l with
  | nil => cases h
  | cons x xs ih =>
      rw [maxPrio_cons]
      rcases List.mem_cons.mp h with rfl | hx
      · exact tgt_omax_self _ _
      · exact tgt_omax_mono (ih hx) _

theorem length_insertDesc (x : CanonRow) (s : List CanonRow) :
    (insertDesc x s).length = s.length + 1 := by
  induction s with
  | nil => rfl
  | cons y ys ih =>
      cases h : rowBefore y x <;> simp [insertDesc, h, ih]

theorem mem_insertDesc {w x : CanonRow} {s : List CanonRow} :
    w ∈ insertDesc x s ↔ w = x ∨ w ∈ s := by
  induction s with
  | nil => simp [insertDesc]
  | cons y ys ih =>
      cases h : rowBefore y x <;> simp [insertDesc, h, ih] <;> tauto

theorem insertDesc_of_forall {x : CanonRow} {s : List CanonRow}
    (h : ∀ z ∈ s, rowBefore z x = false) : insertDesc x s = x :: s := by
  cases s with
  | nil => rfl
  | cons y ys => simp [insertDesc, h y (by simp)]

theorem sorted_insertDesc {x : CanonRow} {s : List CanonRow} (hs : SortedDesc s) :
    SortedDesc (insertDesc x s) := by
  induction s with
  | nil => simp [insertDesc]
  | cons y ys ih =>
      have hs2 := List.pairwise_cons.mp hs
      cases h : rowBefore y x with
      | false =>
          rw [insertDesc, h, if_neg (by simp)]
          refine List.Pairwise.cons ?_ (List.Pairwise.cons hs2.1 hs2.2)
          intro z hz
          rcases List.mem_cons.mp hz with rfl | hzys
          · exact h
          · exact tgt_trans_neg (hs2.1 z hzys) h
      | true =>
          rw [insertDesc, h, if_pos rfl]
          refine List.Pairwise.cons ?_ (ih hs2.2)
          intro w hw
          rcases mem_insertDesc.mp hw with rfl | hwys
          · exact tgt_asymm h
          · exact hs2.1 w hwys

theorem sortDesc_sorted (l : List CanonRow) : SortedDesc (sortDesc l) := by
  induction l with
  | nil => simp [sortDesc]
  | cons x xs ih => exact sorted_insertDesc ih

theorem length_sortDesc (l : List CanonRow) : (sortDesc l).length = l.length := by
  induction l with
  | nil => rfl
  | cons x xs ih => rw [sortDesc, length_insertDesc, ih, List.length_cons]

theorem mem_sortDesc {w : CanonRow} {l : List CanonRow} :
    w ∈ sortDesc l ↔ w ∈ l := by
  induction l with
  | nil => exact Iff.rfl
  | cons x xs ih => rw [sortDesc, mem_insertDesc, ih, List.mem_cons]

theorem sortDesc_eq_of_sorted {l : List CanonRow} (h : SortedDesc l) :
    sortDesc l = l := by
  induction l with
  | nil => rfl
  | cons x xs ih =>
      have h2 := List.pairwise_cons.mp h
      rw [sortDesc, ih h2.2, insertDesc_of_forall h2.1]

theorem filter_insertDesc (p : CanonRow → Bool) {x : CanonRow} {s : List CanonRow}
    (hs : SortedDesc s) :
    (insertDesc x s).filter p =
      if p x = true then insertDesc x (s.filter p) else s.filter p := by
  induction s with
  | nil => cases h : p x <;> simp [insertDesc, h]
  | cons y ys ih =>
      have hs2 := List.pairwise_cons.mp hs
      cases h : rowBefore y x with
      | true =>
          rw [insertDesc, h, if_pos rfl]
          rw [List.filter_cons, List.filter_cons]
          cases hpy : p y
          · simp only [Bool.false_eq_true, if_neg, ite_false]
            exact ih hs2.2
          · simp only [ite_true, if_pos]
            rw [ih hs2.2]
            cases hpx : p x
            · simp
            · simp only [ite_true, if_pos]
              rw [insertDesc, h, if_pos rfl]
      | false =>
          have hall : ∀ z ∈ (y :: ys).filter p, rowBefore z x = false := by
            intro z hz
            rcases List.mem_cons.mp (List.mem_filter.mp hz).1 with rfl | hzys
            · exact h
            · exact tgt_trans_neg (hs2.1 z hzys) h
          rw [insertDesc, h, if_neg (by simp)]
          rw [List.filter_cons]
          cases hpx : p x
          · simp
          · simp only [ite_true, if_pos]
            rw [insertDesc_of_forall hall]

theorem filter_sortDesc (p : CanonRow → Bool) (l : List CanonRow) :
    (sortDesc l).filter p = sortDesc (l.filter p) := by
  induction l with
  | nil => rfl
  | cons x xs ih =>
      rw [sortDesc, filter_insertDesc p (sortDesc_sorted xs), List.filter_cons]
      cases hpx : p x
      · simp [ih]
      · simp only [ite_true, if_pos]
        rw [ih, sortDesc]

theorem dropDupFirst_sublist (s : List CanonRow)
    (seen : List (Option Nat × Option Value × Option Value × Option Value)) :
    (dropDupFirst s seen).Sublist s := by
  induction s generalizing seen with
  | nil => exact List.Sublist.refl []
  | cons r rs ih =>
      rw [dropDupFirst]
      by_cases h : bkey r ∈ seen
      · rw [if_pos h]
        exact List.Sublist.cons r (ih seen)
      · rw [if_neg h]
        exact List.Sublist.cons₂ r (ih (bkey r :: seen))

theorem mem_dropDupFirst_not_seen {r : CanonRow} {s : List CanonRow}
    {seen : List (Option Nat × Option Value × Option Value × Option Value)}
    (h : r ∈ dropDupFirst s seen) : bkey r ∉ seen := by
  induction s generalizing seen with
  | nil => cases h
  | cons w ws ih =>
      rw [dropDupFirst] at h
      by_cases hw : bkey w ∈ seen
      · rw [if_pos hw] at h
        exact ih h
      · rw [if_neg hw] at h
        rcases List.mem_cons.mp h with rfl | h2
        · exact hw
        · intro hc
          exact ih h2 (List.mem_cons_of_mem _ hc)

theorem pairwise_keys_dropDupFirst (s : List CanonRow)
    (seen : List (Option Nat × Option Value × Option Value × Option Value)) :
    (dropDupFirst s seen).Pairwise (fun a b => bkey a ≠ bkey b) := by
  induction s generalizing seen with
  | nil => exact List.Pairwise.nil
  | cons r rs ih =>
      rw [dropDupFirst]
      by_cases h : bkey r ∈ seen
      · rw [if_pos h]; exact ih seen
      · rw [if_neg h]
        refine List.Pairwise.cons ?_ (ih (bkey r :: seen))
        intro w hw hc
        exact mem_dropDupFirst_not_seen hw (by rw [← hc]; exact List.mem_cons_self _ _)

theorem dropDupFirst_eq_of_nodup {l : List CanonRow}
    {seen : List (Option Nat × Option Value × Option Value × Option Value)}
    (hnd : l.Pairwise (fun a b => bkey a ≠ bkey b))
    (hseen : ∀ r ∈ l, bkey r ∉ seen) : dropDupFirst l seen = l := by
  induction l generalizing seen with
  | nil => rfl
  | cons r rs ih =>
      have hnd2 := List.pairwise_cons.mp hnd
      rw [dropDupFirst, if_neg (hseen r (List.mem_cons_self _ _))]
      congr 1
      refine ih hnd2.2 ?_
      intro w hw
      rw [List.mem_cons]
      push_neg
      exact ⟨fun hc => (hnd2.1 w hw) hc.symm |>.elim, hseen w (List.mem_cons_of_mem _ hw)⟩

theorem take_one_eq_head_toList {α : Type} (xs : List α) :
    xs.take 1 = xs.head?.toList := by
  cases xs <;> simp

theorem dropDupFirst_filter_key
    (k : Option Nat × Option Value × Option Value × Option Value)
    (s : List CanonRow)
    (seen : List (Option Nat × Option Value × Option Value × Option Value)) :
    (dropDupFirst s seen).filter (keyIs k) =
      if k ∈ seen then [] else (s.filter (keyIs k)).take 1 := by
  induction s generalizing seen with
  | nil => by_cases h : k ∈ seen <;> simp [dropDupFirst, h]
  | cons r rs ih =>
      rw [dropDupFirst]
      by_cases hr : bkey r ∈ seen
      · rw [if_pos hr, ih seen]
        by_cases hk : k ∈ seen
        · rw [if_pos hk, if_pos hk]
        · have hrk : keyIs k r = false := by
            simp only [keyIs, decide_eq_false_iff_not]
            intro hc; rw [hc] at hr; exact hk hr
          rw [if_neg hk, if_neg hk, List.filter_cons, hrk]
          simp
      · rw [if_neg hr, List.filter_cons]
        by_cases hk : bkey r = k
        · have hrk : keyIs k r = true := by simp [keyIs, hk]
          have hkseen : k ∉ seen := by rw [← hk]; exact hr
          rw [hrk, if_pos rfl, ih (bkey r :: seen), if_pos (by rw [hk]; exact List.mem_cons_self _ _)]
          rw [if_neg hkseen, List.filter_cons, hrk]
          simp
        · have hrk : keyIs k r = false := by
            simp only [keyIs, decide_eq_false_iff_not]
            exact hk
          rw [hrk]
          simp only [Bool.false_eq_true, if_false]
          rw [ih (bkey r :: seen), List.filter_cons, hrk]
          simp only [Bool.false_eq_true, if_false]
          by_cases hk2 : k ∈ seen
          · rw [if_pos (List.mem_cons_of_mem _ hk2), if_pos hk2]
          · rw [if_neg ?_, if_neg hk2]
            rw [List.mem_cons]
            push_neg
            exact ⟨fun hc => hk hc.symm, hk2⟩

theorem head_sortDesc_eq_find_max {l : List CanonRow} (h : l ≠ []) :
    (sortDesc l).head? = l.find? (fun r => decide (prio r = maxPrio l)) := by
  induction l with
  | nil => exact absurd rfl h
  | cons x xs ih =>
      cases xs with
      | nil =>
          have hmax : maxPrio [x] = prio x := by
            rw [maxPrio_cons]
            exact omax_none_right _
          rw [hmax]
          simp [sortDesc, insertDesc, List.find?]
      | cons y ys =>
          have hne : (y :: ys : List CanonRow) ≠ [] := by simp
          have ih' := ih hne
          have hslen : (sortDesc (y :: ys)).length = ys.length + 1 := by
            rw [length_sortDesc]; rfl
          obtain ⟨m, t, heq⟩ : ∃ m t, sortDesc (y :: ys) = m :: t := by
            cases hcase : sortDesc (y :: ys) with
            | nil => rw [hcase] at hslen; cases hslen
            | cons m t => exact ⟨m, t, rfl⟩
          rw [heq] at ih'
          have hfind : (y :: ys).find? (fun r => decide (prio r = maxPrio (y :: ys))) = some m :=
            ih'.symm
          have hm : prio m = maxPrio (y :: ys) := by
            have := List.find?_some hfind
            exact of_decide_eq_true this
          rw [show sortDesc (x :: y :: ys) = insertDesc x (sortDesc (y :: ys)) from rfl, heq]
          cases hmx : rowBefore m x with
          | true =>
              have hmaxx : maxPrio (x :: y :: ys) = maxPrio (y :: ys) := by
                rw [maxPrio_cons, ← hm, omax_eq_right hmx]
              rw [insertDesc, hmx, if_pos rfl, hmaxx]
              have hxne : prio x ≠ maxPrio (y :: ys) := by
                rw [← hm]
                exact fun hc => (tgt_ne hmx) hc
              have hstep : List.find? (fun r => decide (prio r = maxPrio (y :: ys))) (x :: y :: ys)
                  = List.find? (fun r => decide (prio r = maxPrio (y :: ys))) (y :: ys) :=
                List.find?_cons_of_neg _ (by simpa using hxne)
              rw [hstep, hfind]
              rfl
          | false =>
              have hmaxx : maxPrio (x :: y :: ys) = prio x := by
                rw [maxPrio_cons, ← hm, omax_eq_left hmx]
              rw [insertDesc, hmx, if_neg (by simp), hmaxx]
              have hstep : List.find? (fun r => decide (prio r = prio x)) (x :: y :: ys) = some x :=
                List.find?_cons_of_pos _ (by simp)
              rw [hstep]
              rfl

theorem dedup_filter_key (l : List CanonRow)
    (k : Option Nat × Option Value × Option Value × Option Value) :
    (dedup l).filter (keyIs k) = (keptForKey k l).toList := by
  rw [dedup, dropDupFirst_filter_key k _ [], if_neg (List.not_mem_nil k),
    filter_sortDesc, take_one_eq_head_toList, keptForKey]
  by_cases hf : l.filter (keyIs k) = []
  · rw [hf]
    rfl
  · rw [head_sortDesc_eq_find_max hf]

theorem mem_dedup {r : CanonRow} {l : List CanonRow} (h : r ∈ dedup l) : r ∈ l :=
  mem_sortDesc.mp ((dropDupFirst_sublist (sortDesc l) []).subset h)

theorem dedup_sorted (l : List CanonRow) : SortedDesc (dedup l) :=
  List.Pairwise.sublist (dropDupFirst_sublist _ _) (sortDesc_sorted l)

theorem dedup_pairwise_keys (l : List CanonRow) :
    (dedup l).Pairwise (fun a b => bkey a ≠ bkey b) :=
  pairwise_keys_dropDupFirst _ _

theorem dedup_idem (l : List CanonRow) : dedup (dedup l) = dedup l := by
  conv_lhs => rw [dedup]
  rw [sortDesc_eq_of_sorted (dedup_sorted l)]
  exact dropDupFirst_eq_of_nodup (dedup_pairwise_keys l) (fun r _ => List.not_mem_nil _)

theorem dedup_kept_eq {r : CanonRow} {l : List CanonRow} (hr : r ∈ dedup l) :
    keptForKey (bkey r) l = some r := by
  have hmem : r ∈ (dedup l).filter (keyIs (bkey r)) :=
    List.mem_filter.mpr ⟨hr, by simp [keyIs]⟩
  rw [dedup_filter_key] at hmem
  cases hcase : keptForKey (bkey r) l with
  | none => rw [hcase] at hmem; cases hmem
  | some w =>
      rw [hcase] at hmem
      simp only [Option.toList_some, List.mem_singleton] at hmem
      rw [hmem]

theorem dedup_max_prio {r q : CanonRow} {l : List CanonRow} (hr : r ∈ dedup l)
    (hq : q ∈ l) (hk : bkey q = bkey r) : tgt (prio q) (prio r) = false := by
  have hkept := dedup_kept_eq hr
  rw [keptForKey] at hkept
  have hdec :=
    @List.find?_some CanonRow
      (fun w => decide (prio w = maxPrio (List.filter (keyIs (bkey r)) l)))
      r (List.filter (keyIs (bkey r)) l) hkept
  have hpr : prio r = maxPrio (l.filter (keyIs (bkey r))) :=
    of_decide_eq_true hdec
  have hqf : q ∈ l.filter (keyIs (bkey r)) :=
    List.mem_filter.mpr ⟨hq, by simp [keyIs, hk]⟩
  rw [hpr]
  exact mem_tgt_maxPrio hqf

theorem coalesce_eq_find (df : RawFrame) (cands : List String)
    (default : Option Value) :
    coalesceColumns df cands default =
      match cands.find? (qualifies df) with
      | some c => getCol df c
      | none => List.replicate df.rows.length (default.getD .null) := by
  induction cands with
  | nil => rfl
  | cons c rest ih =>
      rw [coalesceColumns]
      by_cases h : qualifies df c = true
      · have h' : (df.cols.contains c && !((getCol df c).all isNullV)) = true := h
        rw [if_pos h', List.find?_cons_of_pos _ h]
      · have h' : ¬ ((df.cols.contains c && !((getCol df c).all isNullV)) = true) := h
        rw [if_neg h', List.find?_cons_of_neg _ h, ih]

theorem insertDesc_perm (x : CanonRow) (s : List CanonRow) :
    (insertDesc x s).Perm (x :: s) := by
  induction s with
  | nil => exact List.Perm.refl _
  | cons y ys ih =>
      cases h : rowBefore y x with
      | false =>
          rw [insertDesc, h, if_neg (by simp)]
      | true =>
          rw [insertDesc, h, if_pos rfl]
          exact List.Perm.trans (List.Perm.cons y ih) (List.Perm.swap x y ys)

theorem sortDesc_perm (l : List CanonRow) : (sortDesc l).Perm l := by
  induction l with
  | nil => exact List.Perm.refl _
  | cons x xs ih =>
      exact List.Perm.trans (insertDesc_perm x (sortDesc xs)) (List.Perm.cons x ih)

theorem isSortResult_sortDesc (l : List CanonRow) : IsSortResult l (sortDesc l) :=
  ⟨sortDesc_perm l, sortDesc_sorted l⟩

theorem dropDupFirst_max_prio_sorted {s : List CanonRow} (hs : SortedDesc s)
    {seen : List (Option Nat × Option Value × Option Value × Option Value)}
    {r q : CanonRow} (hr : r ∈ dropDupFirst s seen) (hq : q ∈ s)
    (hk : bkey q = bkey r) : tgt (prio q) (prio r) = false := by
  induction s generalizing seen with
  | nil => cases hq
  | cons w ws ih =>
      have hs2 := List.pairwise_cons.mp hs
      rw [dropDupFirst] at hr
      by_cases hw : bkey w ∈ seen
      · rw [if_pos hw] at hr
        rcases List.mem_cons.mp hq with rfl | hqws
        · exact absurd (by rw [← hk]; exact hw) (mem_dropDupFirst_not_seen hr)
        · exact ih hs2.2 hr hqws
      · rw [if_neg hw] at hr
        rcases List.mem_cons.mp hr with rfl | hr2
        · rcases List.mem_cons.mp hq with rfl | hqws
          · exact tgt_irrefl _
          · exact hs2.1 q hqws
        · have hrk := mem_dropDupFirst_not_seen hr2
          rcases List.mem_cons.mp hq with rfl | hqws
          · exact absurd (by rw [← hk]; exact List.mem_cons_self _ _) hrk
          · exact ih hs2.2 hr2 hqws

theorem dropDupFirst_covers {s : List CanonRow}
    {seen : List (Option Nat × Option Value × Option Value × Option Value)}
    {q : CanonRow} (hq : q ∈ s) (hqs : bkey q ∉ seen) :
    ∃ r ∈ dropDupFirst s seen, bkey r = bkey q := by
  induction s generalizing seen with
  | nil => cases hq
  | cons w ws ih =>
      rw [dropDupFirst]
      by_cases hw : bkey w ∈ seen
      · rw [if_pos hw]
        rcases List.mem_cons.mp hq with rfl | hqws
        · exact absurd hw hqs
        · exact ih hqws hqs
      · rw [if_neg hw]
        by_cases hbq : bkey q = bkey w
        · exact ⟨w, List.mem_cons_self _ _, hbq.symm⟩
        · rcases List.mem_cons.mp hq with rfl | hqws
          · exact absurd rfl hbq
          · obtain ⟨r, hr, hrk⟩ := ih hqws (by
              rw [List.mem_cons]
              push_neg
              exact ⟨hbq, hqs⟩)
            exact ⟨r, List.mem_cons_of_mem _ hr, hrk⟩

/-- C1 counterexample: "first-seen wins on ties" is not a property of the
code.  Two coerced records share the business key AND the greatest
`ingested_at`; the order `[tieRowB, tieRowA]` is an admissible output of
the unstable `sort_values` (a permutation of the input, descending in
`ingested_at`), and `drop_duplicates(keep="first")` applied to it retains
`tieRowB`, not the first-seen-among-maxima record `keptForKey` demands. -/
theorem C1_first_seen_tie_break_counterexample :
    IsSortResult [tieRowA, tieRowB] [tieRowB, tieRowA] ∧
    (dropDupFirst [tieRowB, tieRowA] []).filter (keyIs (bkey tieRowA)) ≠
      (keptForKey (bkey tieRowA) [tieRowA, tieRowB]).toList := by decide

/-- C1 amended: for every coerced record set and every admissible result of
the unstable descending sort, deduplication retains exactly one record per
business key (pairwise-distinct keys, every input key covered), each
retained record is an input record, and no input record of the same key is
strictly more recent than the retained one; which record is retained among
those tied at the greatest `observed_at` is left unspecified by the code.
The spec's scenario has no tie (2021-02-01 vs 2021-03-01), so every
admissible execution outputs exactly the 2021-03-01 record; `sortDesc` (the
executable model's order) is one admissible result. -/
theorem C1_dedup_latest_wins_tie_unspecified (l s : List CanonRow)
    (h : IsSortResult l s) :
    IsSortResult l (sortDesc l) ∧
    (∀ r ∈ dropDupFirst s [], r ∈ l) ∧
    (∀ r ∈ dropDupFirst s [], ∀ q ∈ l, bkey q = bkey r →
        tgt (prio q) (prio r) = false) ∧
    (∀ q ∈ l, ∃ r ∈ dropDupFirst s [], bkey r = bkey q) ∧
    (dropDupFirst s []).Pairwise (fun a b => bkey a ≠ bkey b) ∧
    (s.Perm (postDropRows 0 exFrameC1) → dropDupFirst s [] = [keptRowC1]) := by
  obtain ⟨hperm, hsort⟩ := h
  refine ⟨isSortResult_sortDesc l, ?_, ?_, ?_, pairwise_keys_dropDupFirst s [], ?_⟩
  · intro r hr
    exact hperm.mem_iff.mp ((dropDupFirst_sublist s []).subset hr)
  · intro r hr q hq hk
    exact dropDupFirst_max_prio_sorted hsort hr (hperm.mem_iff.mpr hq) hk
  · intro q hq
    exact dropDupFirst_covers (hperm.mem_iff.mpr hq) (List.not_mem_nil _)
  · intro hsc
    have hpd : postDropRows 0 exFrameC1 = [otherRowC1, keptRowC1] := by decide
    rw [hpd] at hsc
    have hlen : s.length = 2 := hsc.length_eq
    cases s with
    | nil => simp at hlen
    | cons x t =>
        cases t with
        | nil => simp at hlen
        | cons y u =>
            cases u with
            | cons z v =>
                simp only [List.length_cons] at hlen
                omega
            | nil =>
                have hx : x = otherRowC1 ∨ x = keptRowC1 := by
                  have := hsc.mem_iff.mp (List.mem_cons_self x [y])
                  simpa using this
                have hy : y = otherRowC1 ∨ y = keptRowC1 := by
                  have := hsc.mem_iff.mp (List.mem_cons_of_mem x (List.mem_cons_self y []))
                  simpa using this
                rcases hx with rfl | rfl <;> rcases hy with rfl | rfl
                · exact absurd hsc (by decide)
                · exact absurd hsort (by decide)
                · decide
                · exact absurd hsc (by decide)

/-- Witness for the amended C1 at a concrete input: on the spec scenario's
post-drop set, the admissible sort result `[keptRowC1, otherRowC1]` leads
deduplication to retain exactly the 2021-03-01 record. -/
theorem C1_dedup_latest_wins_tie_unspecified_witness :
    dropDupFirst [keptRowC1, otherRowC1] [] = [keptRowC1] :=
  (C1_dedup_latest_wins_tie_unspecified (postDropRows 0 exFrameC1)
    [keptRowC1, otherRowC1] ⟨by decide, by decide⟩).2.2.2.2.2 (by decide)

/-- C2: every pair of distinct rows in the canonical output of `transform`
differs in the business key (price_date, commodity_id, price_type,
source_name). -/
theorem C2_business_key_unique (now : Nat) (df : RawFrame) :
    (canonRowsOf (transform now df)).Pairwise (fun a b => bkey a ≠ bkey b) := by
  rw [transform]
  by_cases h : df.rows.isEmpty
  · rw [if_pos h]
    exact List.Pairwise.nil
  · rw [if_neg h]
    exact dedup_pairwise_keys _

/-- C3: the reconciler selects the first alias that is present as a column
and has at least one non-null value over the whole set; with no qualifying
alias it broadcasts the default (all-null without one); and on the spec's
scenario (`Value = "12.50"`, `Item Code (CPC) = "0711"`, no
`price_value`/`commodity_id` columns) it yields `price_value = 12.50` and
`commodity_id = "0711"`. -/
theorem C3_first_nonempty_alias_selected :
    (∀ (df : RawFrame) (cands : List String) (default : Option Value),
        coalesceColumns df cands default =
          match cands.find? (qualifies df) with
          | some c => getCol df c
          | none => List.replicate df.rows.length (default.getD .null)) ∧
    priceValueCol exFrameC3 = [some (mkRat 25 2)] ∧
    commodityIdCol exFrameC3 = [some (.str "0711")] :=
  ⟨coalesce_eq_find, by decide, by decide⟩

/-- C4: coercion never raises — a malformed date or non-numeric price
becomes null (shown on concrete malformed inputs) — and every row of
`transform`'s output has a non-null `price_date` and a non-null numeric
`price_value`. -/
theorem C4_output_required_fields_nonnull (now : Nat) (df : RawFrame)
    (r : CanonRow) (hr : r ∈ canonRowsOf (transform now df)) :
    r.price_date.isSome = true ∧ r.price_value.isSome = true ∧
    coerceDate (.str "not-a-date") = none ∧ toNumeric (.str "n/a") = none := by
  refine ⟨?_, ?_, by decide, by decide⟩ <;>
  · rw [transform] at hr
    by_cases h : df.rows.isEmpty
    · rw [if_pos h] at hr
      cases hr
    · rw [if_neg h] at hr
      have hpost : r ∈ postDropRows now df := mem_dedup hr
      have hcond := (List.mem_filter.mp hpost).2
      simp only [Bool.and_eq_true] at hcond
      first
        | exact hcond.1
        | exact hcond.2

/-- Witness for C4 at a concrete input. -/
theorem C4_output_required_fields_nonnull_witness :
    keptRowC1.price_date.isSome = true ∧ keptRowC1.price_value.isSome = true :=
  ⟨(C4_output_required_fields_nonnull 0 exFrameC1 keptRowC1 (by decide)).1,
   (C4_output_required_fields_nonnull 0 exFrameC1 keptRowC1 (by decide)).2.1⟩

/-- C5 counterexample: schema validation is NOT applied before
deduplication — in `run`, validation's input is `transform`'s final,
already-deduplicated output, which on a concrete duplicate-key input
differs from the coerced post-drop record set. -/
theorem C5_validation_not_before_dedup_counterexample :
    canonRowsOf (transform 0 exFrameC1) ≠ postDropRows 0 exFrameC1 := by decide

/-- C5 amended: the Deduplicator operates on the coerced, post-drop record
set, every record of which already satisfies the schema contract's row
rules; schema validation itself runs after deduplication, on `transform`'s
final output (order: Reconciler, Coercer, Deduplicator, then Validator). -/
theorem C5_dedup_on_postdrop_validation_after (now : Nat) (df : RawFrame)
    (h : df.rows ≠ []) :
    canonRowsOf (transform now df) = dedup (postDropRows now df) ∧
    (∀ r ∈ postDropRows now df, rowPasses r = true) := by
  constructor
  · rw [transform, if_neg (by simpa using h)]
    rfl
  · intro r hr
    exact (List.mem_filter.mp hr).2

/-- Witness for the amended C5 at a concrete input. -/
theorem C5_dedup_on_postdrop_validation_after_witness :
    canonRowsOf (transform 0 exFrameC1) = dedup (postDropRows 0 exFrameC1) :=
  (C5_dedup_on_postdrop_validation_after 0 exFrameC1 (by decide)).1

/-- C6 (code bug): on the empty raw input, `transform` passes the empty,
column-less frame through and produces an empty canonical set, but the
pandera validation in `run` fails (every required column is missing from
that frame) instead of raising no error as the spec requires. -/
theorem C6_empty_input_validation_fails :
    transform 0 emptyFrame = .passthrough [] ∧
    canonRowsOf (transform 0 emptyFrame) = [] ∧
    runValidates 0 emptyFrame = false := by decide

/-- C7: deduplication is idempotent — applying the Deduplicator to its own
output yields the same record set. -/
theorem C7_dedup_idempotent (l : List CanonRow) : dedup (dedup l) = dedup l :=
  dedup_idem l

/-- C8: schema validation run on the record set obtained after coercion and
after dropping rows missing a required field never raises: every surviving
row satisfies the schema contract's nullability rules. -/
theorem C8_postdrop_validation_passes (now : Nat) (df : RawFrame) :
    validateResult (.canonical (postDropRows now df)) = true := by
  rw [validateResult, List.all_eq_true]
  intro r hr
  exact (List.mem_filter.mp hr).2

/-- C9: date coercion of "2021" yields the canonical start of year 2021,
coercion of an unparseable string yields null, and on a concrete frame the
unparseable-date row is dropped from `transform`'s output. -/
theorem C9_year_and_unparseable_dates :
    coerceDate (.str "2021") = some (parseYMD 2021 1 1) ∧
    coerceDate (.str "not-a-date") = none ∧
    transform 5 exFrameC9 = .canonical
      [{ price_date := some (parseYMD 2021 1 1)
         commodity_id := none
         commodity_name := none
         price_type := none
         price_currency := some (.str "USD")
         price_value := some 1
         source_name := some (.str "FAOSTAT")
         ingested_at := some 5
         raw_id := 1 }] := by decide

/-- C10: alias selection is per-column — once an alias column is chosen for
a canonical field, its values populate every row verbatim, so a row whose
value in the chosen column is null receives null even when a lower-priority
alias holds a non-null value for that row; on a concrete frame the
null-dated row is then dropped although its `year` alias was non-null. -/
theorem C10_alias_selection_per_column (df : RawFrame) (cands : List String)
    (default : Option Value) (c : String)
    (hc : cands.find? (qualifies df) = some c) :
    coalesceColumns df cands default = getCol df c ∧
    dateCol exFrameC10 = [none, some (parseYMD 2021 1 1)] ∧
    canonRowsOf (transform 7 exFrameC10) =
      [{ price_date := some (parseYMD 2021 1 1)
         commodity_id := none
         commodity_name := none
         price_type := none
         price_currency := some (.str "USD")
         price_value := some 6
         source_name := some (.str "FAOSTAT")
         ingested_at := some 7
         raw_id := 2 }] := by
  refine ⟨?_, by decide, by decide⟩
  rw [coalesce_eq_find, hc]

/-- Witness for C10 at a concrete input: on the C10 frame the chosen
`price_date` column populates the whole canonical column verbatim. -/
theorem C10_alias_selection_per_column_witness :
    coalesceColumns exFrameC10 ["price_date", "timeperiod", "time", "year"] none =
      getCol exFrameC10 "price_date" :=
  (C10_alias_selection_per_column exFrameC10 ["price_date", "timeperiod", "time", "year"]
    none "price_date" (by decide)).1
